import Mathlib

/-!
Verification of the Powerball CSV updater and sorter scripts.

The repository has two scripts:
* powerball_updater.py : reads a local CSV, fetches new draw rows from the
  NY Open Data Socrata endpoint, merges them into the CSV, and writes it back.
* sort_powerball.py : normalizes the date column of one or more CSV files
  and rewrites each file sorted by that column, newest first.

This file gives a shallow embedding of both scripts.  Pure Python/pandas
logic is translated function by function; the pandas library calls
(to_datetime, drop_duplicates, sort_values, astype(str)) are modelled by
explicit executable Lean functions whose doc comments say exactly which
library behaviour they stand for.
-/

/-! ## Character and digit helpers -/

/-- Numeric value of a decimal digit character. -/
def dVal (c : Char) : Nat := c.toNat - 48

/-- Tests whether a character is a decimal digit (codes 48 to 57). -/
def isDig (c : Char) : Bool := 48 ≤ c.toNat && c.toNat ≤ 57

/-- The decimal digit character for n mod 10 (code 48 + n mod 10). -/
def digitChar10 (n : Nat) : Char := Char.ofNat (48 + n % 10)

/-- Value of a two-digit decimal string given by its two characters. -/
def twoDigit (a b : Char) : Nat := dVal a * 10 + dVal b

/-- Value of a four-digit decimal string given by its four characters. -/
def fourDigit (a b c d : Char) : Nat :=
  dVal a * 1000 + dVal b * 100 + dVal c * 10 + dVal d

/-! ## Header normalization (sort_powerball.py, def norm) -/

/-- Keeps lowercase letters and digits, models the regex class a-z0-9. -/
def keepAlnum (c : Char) : Bool :=
  (97 ≤ c.toNat && c.toNat ≤ 122) || (48 ≤ c.toNat && c.toNat ≤ 57)

/-- Embeds norm from sort_powerball.py: lowercase the string, then drop
every character that is not a lowercase letter or digit. -/
def norm (s : String) : String :=
  String.mk ((s.data.map Char.toLower).filter keepAlnum)

/-- Embeds DATE_CANDIDATES from sort_powerball.py (a Python set; membership
only, so a list with containment is a faithful model). -/
def dateCandidates : List String :=
  ["drawdate", "draw_date", "date", "drawingdate", "draw_dt", "draw"]

/-! ## Date parsing: model of the pandas to_datetime collaborator -/

/-- Gregorian leap-year test. -/
def isLeap (y : Nat) : Bool := (y % 4 == 0 && y % 100 != 0) || (y % 400 == 0)

/-- Number of days in a month of a given year. -/
def daysInMonth (y m : Nat) : Nat :=
  if m == 2 then (if isLeap y then 29 else 28)
  else if m == 4 || m == 6 || m == 9 || m == 11 then 30
  else 31

/-- Calendar validity of a year-month-day triple. -/
def validYmd (y m d : Nat) : Bool :=
  1 ≤ m && m ≤ 12 && 1 ≤ d && d ≤ daysInMonth y m

/-- Parses a character list of the exact shape YYYY-MM-DD into a valid
year-month-day triple. -/
def parseYMD : List Char → Option (Nat × Nat × Nat)
  | [y1, y2, y3, y4, s1, mo1, mo2, s2, d1, d2] =>
    if s1 == '-' && s2 == '-' && [y1, y2, y3, y4, mo1, mo2, d1, d2].all isDig then
      let y := fourDigit y1 y2 y3 y4
      let mo := twoDigit mo1 mo2
      let d := twoDigit d1 d2
      if validYmd y mo d then some (y, mo, d) else none
    else none
  | _ => none

/-- Parses a character list of the exact shape MM/DD/YYYY into a valid
year-month-day triple. -/
def parseMDY : List Char → Option (Nat × Nat × Nat)
  | [mo1, mo2, s1, d1, d2, s2, y1, y2, y3, y4] =>
    if s1 == '/' && s2 == '/' && [mo1, mo2, d1, d2, y1, y2, y3, y4].all isDig then
      let y := fourDigit y1 y2 y3 y4
      let mo := twoDigit mo1 mo2
      let d := twoDigit d1 d2
      if validYmd y mo d then some (y, mo, d) else none
    else none
  | _ => none

/-- Drops one trailing Z (UTC marker) from a character list if present. -/
def stripZ (l : List Char) : List Char :=
  if l.getLast? == some 'Z' then l.dropLast else l

/-- Accepts what may follow HH:MM:SS in an ISO time: nothing, a UTC Z, or a
dot followed by a fractional-second digit run with an optional trailing Z. -/
def validTimeTail : List Char → Bool
  | [] => true
  | ['Z'] => true
  | '.' :: rest => !(stripZ rest).isEmpty && (stripZ rest).all isDig
  | _ => false

/-- Accepts an ISO time of day HH:MM:SS with optional fraction and UTC Z. -/
def validTime : List Char → Bool
  | h1 :: h2 :: c1 :: mi1 :: mi2 :: c2 :: s1 :: s2 :: rest =>
    c1 == ':' && c2 == ':' && [h1, h2, mi1, mi2, s1, s2].all isDig &&
      twoDigit h1 h2 < 24 && twoDigit mi1 mi2 < 60 && twoDigit s1 s2 < 60 &&
      validTimeTail rest
  | _ => false

/-- Modelled collaborator: per-cell outcome of the pandas call
pd.to_datetime(value, errors coerce) as both scripts use it, restricted to
the date shapes this repository's data carries: canonical YYYY-MM-DD, the
same with an ISO time suffix T HH:MM:SS (optional fraction, optional UTC Z,
no non-UTC offsets), and US MM/DD/YYYY.  Returns the calendar date or none
for the coerced NaT. -/
def parseDate (s : String) : Option (Nat × Nat × Nat) :=
  match parseYMD s.data with
  | some d => some d
  | none =>
    match parseMDY s.data with
    | some d => some d
    | none =>
      if s.data.get? 10 == some 'T' && validTime (s.data.drop 11) then
        parseYMD (s.data.take 10)
      else none

/-- A cell parses as a date exactly when the modelled to_datetime call does
not coerce it to NaT. -/
def parsesAsDate (s : String) : Bool := (parseDate s).isSome

/-- Character list YYYY-MM-DD for a year-month-day triple, zero padded, as
produced by str() of a Python datetime.date. -/
def formatDateChars (x : Nat × Nat × Nat) : List Char :=
  [digitChar10 (x.1 / 1000), digitChar10 (x.1 / 100), digitChar10 (x.1 / 10),
   digitChar10 x.1, '-', digitChar10 (x.2.1 / 10), digitChar10 x.2.1, '-',
   digitChar10 (x.2.2 / 10), digitChar10 x.2.2]

/-- String YYYY-MM-DD for a year-month-day triple. -/
def formatDate (x : Nat × Nat × Nat) : String := String.mk (formatDateChars x)

/-- The Date Normalizer of the spec: parse, then re-emit as YYYY-MM-DD;
none models UNPARSEABLE. -/
def normalizeDate (s : String) : Option String := (parseDate s).map formatDate

/-- Embeds line 40 of sort_powerball.py for one cell: the composition
to_datetime(errors coerce) then dt.date then astype(str).  A parseable cell
becomes its canonical YYYY-MM-DD text; an unparseable cell becomes NaT and
astype(str) renders NaT as the three-character string NaT. -/
def normalizeCell (s : String) : String := (normalizeDate s).getD "NaT"

example : normalizeDate "2024-01-06" = some "2024-01-06" := by decide
example : normalizeDate "01/06/2024" = some "2024-01-06" := by decide
example : normalizeDate "2024-01-06T00:00:00" = some "2024-01-06" := by decide
example : normalizeDate "2024-02-30" = none := by decide
example : normalizeCell "garbage" = "NaT" := by decide
example : norm "DRAW-DATE" = "drawdate" := by decide

/-! ## Tables and the Column Identifier (sort_powerball.py, guess_date_col) -/

/-- A named column with its cell values, as iterated by the loops over
df.columns in guess_date_col. -/
structure Column where
  name : String
  cells : List String
deriving DecidableEq, Repr

/-- A CSV table as read by pd.read_csv with dtype str: a header row and a
list of data rows of string cells. -/
structure Table where
  headers : List String
  rows : List (List String)
deriving DecidableEq, Repr

/-- Cell of a row at a column position; absent positions read as the empty
string (pandas fills short rows with missing values, which to_datetime
coerces like an empty cell). -/
def cellAt (r : List String) (i : Nat) : String := r.getD i ""

/-- The columns of a table in header order, pairing each header with the
cells below it. -/
def tableCols (t : Table) : List Column :=
  t.headers.enum.map (fun p => ⟨p.2, t.rows.map (fun r => cellAt r p.1)⟩)

/-- Embeds the expression s.notna().sum() of guess_date_col for one column:
the number of cells the to_datetime model parses. -/
def hits (c : Column) : Nat := (c.cells.filter parsesAsDate).length

/-- Embeds the content-based fallback loop of guess_date_col: best_col and
best_hits start as None and -1, and a column replaces the best when its hit
count strictly exceeds best_hits and is positive. -/
def contentGo : List Column → Option String → Int → Option String
  | [], best, _ => best
  | c :: cs, best, bh =>
    if (hits c : Int) > bh ∧ (hits c : Int) > 0 then contentGo cs (some c.name) (hits c)
    else contentGo cs best bh

/-- Largest hit count over a list of columns (0 when empty). -/
def listMaxHits (cs : List Column) : Nat := cs.foldr (fun c m => max (hits c) m) 0

/-- Embeds guess_date_col from sort_powerball.py: first the name-based scan
comparing normalized headers against DATE_CANDIDATES, then the content-based
fallback. -/
def guess_date_col (t : Table) : Option String :=
  match (tableCols t).find? (fun c => dateCandidates.contains (norm c.name)) with
  | some c => some c.name
  | none => contentGo (tableCols t) none (-1)

/-- First position of a name match in a header list: the index at which the
name-based scan of guess_date_col succeeds. -/
def nameMatchIdx : List String → Option Nat
  | [] => none
  | c :: cs =>
    if dateCandidates.contains (norm c) then some 0
    else (nameMatchIdx cs).map (· + 1)

example : guess_date_col ⟨["Draw Date", "n"], [["x", "y"]]⟩ = some "Draw Date" := by decide
example : guess_date_col ⟨["a", "b"], [["x", "2024-01-06"], ["y", "zzz"]]⟩ = some "b" := by decide
example : guess_date_col ⟨["a"], [["xyz"]]⟩ = none := by decide

/-! ## String comparison: model of Python string ordering (code points). -/

/-- Lexicographic strict order on character lists by code point. -/
def strLtChars : List Char → List Char → Bool
  | [], [] => false
  | [], _ :: _ => true
  | _ :: _, [] => false
  | a :: as, b :: bs =>
    if a.toNat < b.toNat then true
    else if b.toNat < a.toNat then false
    else strLtChars as bs

/-- Lexicographic order on character lists by code point. -/
def strLeChars : List Char → List Char → Bool
  | [], _ => true
  | _ :: _, [] => false
  | a :: as, b :: bs =>
    if a.toNat < b.toNat then true
    else if b.toNat < a.toNat then false
    else strLeChars as bs

/-- Python string comparison, non-strict. -/
def strLe (a b : String) : Bool := strLeChars a.data b.data

/-- Python string comparison, strict. -/
def strLt (a b : String) : Bool := strLtChars a.data b.data

example : strLt "2009-12-31" "2010-02-03" = true := by decide
example : strLt "2024-01-06" "NaT" = true := by decide

/-! ## Stable insertion sort: model of sort_values with the stable mergesort
kind used by sort_file.  Any comparison sort agrees with it on lists whose
keys are pairwise distinct, which also covers the updater's post-dedup
sort_values call. -/

/-- Inserts an element before the first list element it relates to. -/
def insertLe {α : Type} (le : α → α → Bool) (x : α) : List α → List α
  | [] => [x]
  | y :: ys => if le x y then x :: y :: ys else y :: insertLe le x ys

/-- Insertion sort from the right; stable for the relation le. -/
def sortLe {α : Type} (le : α → α → Bool) (l : List α) : List α :=
  l.foldr (insertLe le) []

/-! ## The sorter pipeline (sort_powerball.py, sort_file and main) -/

/-- Position of a header name in a header list (first match, as pandas
column label lookup resolves it). -/
def idxOfCol (name : String) : List String → Nat
  | [] => 0
  | c :: cs => if c == name then 0 else idxOfCol name cs + 1

/-- Embeds lines 39 to 43 of sort_powerball.py: overwrite the chosen date
column with its normalized text (NaT for unparseable cells), then sort the
rows by that column, descending, with the stable mergesort kind. -/
def sortTransform (t : Table) (col : String) : Table :=
  let i := idxOfCol col t.headers
  let rows2 := t.rows.map (fun r => r.set i (normalizeCell (cellAt r i)))
  ⟨t.headers, sortLe (fun a b => strLe (cellAt b i) (cellAt a i)) rows2⟩

/-- Observable outcome of sort_file on one file: the diagnostic line it
prints and the table it writes back, none when the file is left untouched. -/
structure FileResult where
  message : String
  written : Option Table
deriving DecidableEq, Repr

/-- Embeds sort_file: a missing file or a file with no date-like column is
skipped with a diagnostic and nothing is written; otherwise the transformed
table is written over the file.  The Python function returns None on every
path. -/
def sort_file (path : String) (file : Option Table) : FileResult :=
  match file with
  | none => ⟨"#skip: " ++ path ++ " not found", none⟩
  | some t =>
    match guess_date_col t with
    | none =>
      ⟨"#skip: " ++ path ++ " has no date-like column (headers: "
        ++ String.intercalate ", " t.headers ++ ")", none⟩
    | some col =>
      ⟨"#sorted: " ++ path ++ " by " ++ col ++ " (desc, date only)",
        some (sortTransform t col)⟩

/-- The value sort_file returns to its caller: None on every path. -/
def sortFileReturn (_ : FileResult) : Option Nat := none

/-- Process exit status produced by sys.exit on a Python value: None exits
with status 0, an integer with that integer. -/
def sysExitOfReturn : Option Nat → Nat
  | none => 0
  | some n => n

/-- Embeds main of sort_powerball.py together with the trailing
sys.exit(main()): every file is processed independently in order, main
returns None, and the process exit status is sys.exit of that None. -/
def sorterMain (files : List (String × Option Table)) : List FileResult × Nat :=
  (files.map (fun p => sort_file p.1 p.2), sysExitOfReturn none)

/-! ## The updater (powerball_updater.py) -/

/-- One canonical output row of the updater with its three columns. -/
structure Row where
  drawDate : String
  winningNumbers : String
  multiplier : String
deriving DecidableEq, Repr

/-- Embeds drop_duplicates on the Draw Date column with keep last: a row
survives exactly when no later row carries the same Draw Date string, and
survivors keep their relative order. -/
def keepLastByDate : List Row → List Row
  | [] => []
  | r :: rs =>
    if rs.any (fun s => s.drawDate == r.drawDate) then keepLastByDate rs
    else r :: keepLastByDate rs

/-- Ascending comparison on the Draw Date string of a row. -/
def rowLeAsc (a b : Row) : Bool := strLe a.drawDate b.drawDate

/-- Embeds lines 108 and 109 of powerball_updater.py: concatenate existing
rows then new rows, drop duplicate Draw Date strings keeping the last
occurrence, and sort ascending by the Draw Date string.  After the dedup the
keys are pairwise distinct, so the stable model sort returns the same list
as any comparison sort. -/
def merge (ex nw : List Row) : List Row :=
  sortLe rowLeAsc (keepLastByDate (ex ++ nw))

/-- Embeds pick from powerball_updater.py main: the first name option that
occurs verbatim among the columns. -/
def pick (cols : List String) (opts : List String) : Option String :=
  opts.find? (fun n => cols.contains n)

/-- Name options passed to pick for the date column. -/
def dateNameOptions : List String := ["Draw Date", "draw_date", "Draw date", "date"]

/-- Name options passed to pick for the winning-numbers column. -/
def numsNameOptions : List String :=
  ["Winning Numbers", "winning_numbers", "Winning numbers"]

/-- Name options passed to pick for the multiplier column. -/
def multNameOptions : List String :=
  ["Multiplier", "multiplier", "Power Play", "powerplay", "power_play"]

/-- One record of the Socrata response with the alternative field spellings
fetch_since probes; an absent field is none. -/
structure ApiRow where
  draw_date : Option String
  drawdate : Option String
  date : Option String
  winning_numbers : Option String
  winningnumbers : Option String
  multiplier : Option String
  power_play : Option String
  powerplay : Option String
deriving DecidableEq, Repr

/-- Python x or y over optional strings: the first operand unless it is
absent or empty (falsy). -/
def orTruthy (a b : Option String) : Option String :=
  match a with
  | some s => if s.isEmpty then b else some s
  | none => b

/-- Python split on T, first part: the characters before the first T. -/
def splitT (s : String) : String := String.mk (s.data.takeWhile (fun c => !(c == 'T')))

/-- The draw-date field of an API record under its alternative spellings. -/
def apiDraw (r : ApiRow) : Option String := orTruthy r.draw_date (orTruthy r.drawdate r.date)

/-- The winning-numbers field of an API record. -/
def apiNums (r : ApiRow) : Option String := orTruthy r.winning_numbers r.winningnumbers

/-- The multiplier field of an API record. -/
def apiMult (r : ApiRow) : Option String := orTruthy r.multiplier (orTruthy r.power_play r.powerplay)

/-- Embeds the record normalization of fetch_since (lines 36 to 47 plus the
astype(str) on line 94): the date field is cut at T and re-rendered through
to_datetime and dt.date, so a missing or unparseable date reads NaT; missing
numbers or multiplier read as empty cells. -/
def apiToRow (r : ApiRow) : Row :=
  { drawDate :=
      match apiDraw r with
      | some s => normalizeCell (splitT s)
      | none => "NaT"
    winningNumbers := (apiNums r).getD ""
    multiplier := (apiMult r).getD "" }

/-- Modelled collaborator: the Socrata endpoint applies the where filter
draw_date strictly greater than the bound to its stored dataset.  The order
parameter of the request is not modelled; fetch_since re-sorts the rows
itself. -/
def serverRows (dataset : List ApiRow) (since : String) : List ApiRow :=
  dataset.filter (fun r => strLt since (r.draw_date.getD ""))

/-- Embeds fetch_since: filter the dataset at the server, normalize each
record, and sort ascending by the Draw Date text (line 48; the NaT rows sort
last, as na_position last places them). -/
def fetch_since (dataset : List ApiRow) (since : String) : List Row :=
  sortLe rowLeAsc ((serverRows dataset since).map apiToRow)

/-- Lexicographic order on year-month-day triples. -/
def ymdLe (a b : Nat × Nat × Nat) : Bool :=
  decide (a.1 < b.1 ∨ (a.1 = b.1 ∧ (a.2.1 < b.2.1 ∨ (a.2.1 = b.2.1 ∧ a.2.2 ≤ b.2.2))))

/-- Larger of two year-month-day triples. -/
def maxYmd (a b : Nat × Nat × Nat) : Nat × Nat × Nat := if ymdLe a b then b else a

/-- Embeds lines 75 to 81 of powerball_updater.py: parse the date column
with to_datetime(errors coerce), take the maximum (NaT values are skipped),
and fall back to the sentinel 2009-12-31 when nothing parsed. -/
def last_date_iso (vals : List String) : String :=
  match vals.filterMap parseDate with
  | [] => "2009-12-31"
  | d :: ds => formatDate (ds.foldl maxYmd d)

/-- The cells of a named column of a table, top to bottom. -/
def colCells (t : Table) (name : String) : List String :=
  t.rows.map (fun r => cellAt r (idxOfCol name t.headers))

/-- Embeds lines 96 to 106 of powerball_updater.py: rename the recognized
columns to the canonical three and fill the missing ones with empty cells. -/
def toExistingRows (t : Table) (dateCol : String) (numsCol multCol : Option String) :
    List Row :=
  t.rows.map (fun r =>
    { drawDate := cellAt r (idxOfCol dateCol t.headers)
      winningNumbers :=
        match numsCol with
        | some n => cellAt r (idxOfCol n t.headers)
        | none => ""
      multiplier :=
        match multCol with
        | some n => cellAt r (idxOfCol n t.headers)
        | none => "" })

/-- Observable outcome of one updater run: the process exit status and the
row table written over the CSV, none when the file is not touched. -/
structure UpdaterOutcome where
  exitCode : Nat
  written : Option (List Row)
deriving DecidableEq, Repr

/-- Embeds main of powerball_updater.py: exit 2 when the CSV path does not
exist, exit 3 when pick finds no date column, exit 0 otherwise, writing the
merged table only when the fetch returned new rows. -/
def updaterMain (fileExists : Bool) (df : Table) (dataset : List ApiRow) :
    UpdaterOutcome :=
  if fileExists then
    match pick df.headers dateNameOptions with
    | none => ⟨3, none⟩
    | some dateCol =>
      let since := last_date_iso (colCells df dateCol)
      let dfNew := fetch_since dataset since
      if dfNew.isEmpty then ⟨0, none⟩
      else
        ⟨0, some (merge
          (toExistingRows df dateCol (pick df.headers numsNameOptions)
            (pick df.headers multNameOptions)) dfNew)⟩
  else ⟨2, none⟩

/-! ## Lemmas on keep-last deduplication -/

theorem filter_keepLastByDate (l : List Row) (k : String) :
    (keepLastByDate l).filter (fun r => r.drawDate == k) =
      ((l.filter (fun r => r.drawDate == k)).getLast?).toList := by
  induction l with
  | nil => rfl
  | cons r rs ih =>
    cases hany : rs.any (fun s => s.drawDate == r.drawDate)
    · -- no later row shares the key of r, so r is kept
      have hall := List.any_eq_false.mp hany
      cases hk : (r.drawDate == k)
      · simp only [keepLastByDate, hany, Bool.false_eq_true, if_false]
        rw [List.filter_cons, if_neg (by simp [hk]), ih,
          List.filter_cons, if_neg (by simp [hk])]
      · have hrk : r.drawDate = k := by simpa using hk
        have hnil : rs.filter (fun s => s.drawDate == k) = [] := by
          rw [List.filter_eq_nil_iff]
          intro s hs
          have := hall s hs
          rw [hrk] at this
          simpa using this
        simp only [keepLastByDate, hany, Bool.false_eq_true, if_false]
        rw [List.filter_cons, if_pos (by simp [hk]), ih, hnil,
          List.filter_cons, if_pos (by simp [hk]), hnil]
        rfl
    · -- a later row shares the key of r, so r is dropped
      obtain ⟨s, hs, hsd⟩ := List.any_eq_true.mp hany
      cases hk : (r.drawDate == k)
      · simp only [keepLastByDate, hany, if_true]
        rw [ih, List.filter_cons, if_neg (by simp [hk])]
      · have hrk : r.drawDate = k := by simpa using hk
        have hsk : (s.drawDate == k) = true := by
          have hse : s.drawDate = r.drawDate := by simpa using hsd
          simp [hse, hrk]
        have hne : rs.filter (fun s2 => s2.drawDate == k) ≠ [] :=
          List.ne_nil_of_mem (List.mem_filter.mpr ⟨hs, hsk⟩)
        simp only [keepLastByDate, hany, if_true]
        rw [ih, List.filter_cons, if_pos (by simp [hk])]
        cases hfs : rs.filter (fun s2 => s2.drawDate == k) with
        | nil => exact absurd hfs hne
        | cons a as => rw [List.getLast?_cons_cons]

/-! ## Lemmas on the content-based fallback loop -/

theorem listMaxHits_cons (c : Column) (cs : List Column) :
    listMaxHits (c :: cs) = max (hits c) (listMaxHits cs) := rfl

theorem listMaxHits_eq_zero_iff (cs : List Column) :
    listMaxHits cs = 0 ↔ ∀ c ∈ cs, hits c = 0 := by
  induction cs with
  | nil => simp [listMaxHits]
  | cons c cs ih =>
    rw [listMaxHits_cons, Nat.max_eq_zero_iff, ih]
    simp

theorem contentGo_spec :
    ∀ (cs : List Column) (best : Option String) (bh : Int),
      contentGo cs best bh =
        if bh < (listMaxHits cs : Int) ∧ 0 < listMaxHits cs then
          (cs.find? (fun c => hits c == listMaxHits cs)).map (fun c => c.name)
        else best := by
  intro cs
  induction cs with
  | nil =>
    intro best bh
    simp [contentGo, listMaxHits]
  | cons c cs ih =>
    intro best bh
    rw [listMaxHits_cons]
    by_cases hup : (hits c : Int) > bh ∧ (hits c : Int) > 0
    · rw [show contentGo (c :: cs) best bh = contentGo cs (some c.name) (hits c) from by
        simp [contentGo, hup], ih]
      by_cases hcm : (hits c : Int) < (listMaxHits cs : Int) ∧ 0 < listMaxHits cs
      · rw [if_pos hcm, if_pos (by constructor <;> [omega; omega]),
          List.find?_cons]
        have : (hits c == max (hits c) (listMaxHits cs)) = false := by
          have : hits c ≠ max (hits c) (listMaxHits cs) := by omega
          simpa using this
        rw [this]
        have hmx : max (hits c) (listMaxHits cs) = listMaxHits cs := by omega
        rw [hmx]
      · rw [if_neg hcm, if_pos (by constructor <;> omega), List.find?_cons]
        have hmx : max (hits c) (listMaxHits cs) = hits c := by omega
        rw [hmx]
        have hb : (hits c == hits c) = true := by simp
        rw [hb]
        simp
    · rw [show contentGo (c :: cs) best bh = contentGo cs best bh from by
        simp only [contentGo]; rw [if_neg hup], ih]
      by_cases hgm : bh < (↑(max (hits c) (listMaxHits cs)) : Int) ∧
          0 < max (hits c) (listMaxHits cs)
      · rw [if_pos hgm, if_pos (by constructor <;> omega), List.find?_cons]
        have : (hits c == max (hits c) (listMaxHits cs)) = false := by
          have : hits c ≠ max (hits c) (listMaxHits cs) := by omega
          simpa using this
        rw [this]
        have hmx : max (hits c) (listMaxHits cs) = listMaxHits cs := by omega
        rw [hmx]
      · rw [if_neg hgm, if_neg (by omega)]

theorem parseMDY_length :
    ∀ (cs : List Char) (x : Nat × Nat × Nat), parseMDY cs = some x → cs.length = 10 := by
  intro cs x h
  rcases cs with _ | ⟨c1, cs⟩
  · simp [parseMDY] at h
  rcases cs with _ | ⟨c2, cs⟩
  · simp [parseMDY] at h
  rcases cs with _ | ⟨c3, cs⟩
  · simp [parseMDY] at h
  rcases cs with _ | ⟨c4, cs⟩
  · simp [parseMDY] at h
  rcases cs with _ | ⟨c5, cs⟩
  · simp [parseMDY] at h
  rcases cs with _ | ⟨c6, cs⟩
  · simp [parseMDY] at h
  rcases cs with _ | ⟨c7, cs⟩
  · simp [parseMDY] at h
  rcases cs with _ | ⟨c8, cs⟩
  · simp [parseMDY] at h
  rcases cs with _ | ⟨c9, cs⟩
  · simp [parseMDY] at h
  rcases cs with _ | ⟨c10, cs⟩
  · simp [parseMDY] at h
  rcases cs with _ | ⟨c11, cs⟩
  · rfl
  · simp [parseMDY] at h

/-! ## Concrete fixtures used by counterexamples and witnesses -/

/-- An existing row whose date string carries an ISO time suffix; its
canonical date is 2024-01-06. -/
def exRowOld : Row := ⟨"2024-01-06T00:00:00", "01 02 03 04 05 06", "2"⟩

/-- A freshly fetched row for the same canonical date 2024-01-06. -/
def exRowNew : Row := ⟨"2024-01-06", "07 08 09 10 11 12", "3"⟩

/-- A two-row table whose date column holds one valid date and one
unparseable cell. -/
def exTableMixed : Table := ⟨["d", "x"], [["2024-01-06", "a"], ["garbage", "b"]]⟩

/-- A table with no date-like column at all. -/
def exTableNoDate : Table := ⟨["a"], [["xyz"]]⟩

/-- A table identified through the content fallback: no header name
matches, and only the second column parses as dates. -/
def exTableContent : Table := ⟨["a", "b"], [["x", "2024-01-06"], ["y", "zzz"]]⟩

/-- A table whose date column cells are all unparseable. -/
def exTableTwoBad : Table := ⟨["d"], [["foo"], ["bar"]]⟩

/-- A table the updater accepts (header date) whose single cell does not
parse. -/
def exTableUpd : Table := ⟨["date"], [["garbage"]]⟩

/-- A dataset record as the Socrata endpoint returns it. -/
def exApiRow : ApiRow :=
  ⟨some "2010-02-03T00:00:00.000", none, none, some "17 22 36 37 52 24", none,
    some "2", none, none⟩

example : merge [exRowOld] [exRowNew] = [exRowNew, exRowOld] := by decide

/-! ## Lemmas on the string comparison model -/

theorem strLeChars_refl (l : List Char) : strLeChars l l = true := by
  induction l with
  | nil => rfl
  | cons a as ih => simp [strLeChars, ih]

theorem strLeChars_total (a b : List Char) :
    strLeChars a b = true ∨ strLeChars b a = true := by
  induction a generalizing b with
  | nil => left; rfl
  | cons x xs ih =>
    cases b with
    | nil => right; rfl
    | cons y ys =>
      rcases Nat.lt_trichotomy x.toNat y.toNat with h | h | h
      · left; simp [strLeChars, h]
      · rcases ih ys with h2 | h2
        · left; simp [strLeChars, h, h2]
        · right; simp [strLeChars, h.symm, h2]
      · right; simp [strLeChars, h]

theorem strLeChars_trans :
    ∀ a b c : List Char, strLeChars a b = true → strLeChars b c = true →
      strLeChars a c = true := by
  intro a
  induction a with
  | nil => intro b c _ _; rfl
  | cons x xs ih =>
    intro b c h1 h2
    cases b with
    | nil => simp [strLeChars] at h1
    | cons y ys =>
      cases c with
      | nil => simp [strLeChars] at h2
      | cons z zs =>
        simp only [strLeChars] at h1 h2 ⊢
        rcases Nat.lt_trichotomy x.toNat y.toNat with hxy | hxy | hxy
        · rcases Nat.lt_trichotomy y.toNat z.toNat with hyz | hyz | hyz
          · simp [show x.toNat < z.toNat from by omega]
          · simp [show x.toNat < z.toNat from by omega]
          · rw [if_neg (by omega), if_pos (by omega)] at h2; simp at h2
        · rcases Nat.lt_trichotomy y.toNat z.toNat with hyz | hyz | hyz
          · simp [show x.toNat < z.toNat from by omega]
          · rw [if_neg (by omega), if_neg (by omega)] at h1
            rw [if_neg (by omega), if_neg (by omega)] at h2
            rw [if_neg (by omega), if_neg (by omega)]
            exact ih ys zs h1 h2
          · rw [if_neg (by omega), if_pos (by omega)] at h2; simp at h2
        · rw [if_neg (by omega), if_pos (by omega)] at h1; simp at h1

theorem strLe_refl (s : String) : strLe s s = true := strLeChars_refl s.data

theorem strLe_total (a b : String) : strLe a b = true ∨ strLe b a = true :=
  strLeChars_total a.data b.data

theorem strLe_trans {a b c : String} (h1 : strLe a b = true) (h2 : strLe b c = true) :
    strLe a c = true := strLeChars_trans a.data b.data c.data h1 h2

/-! ## Lemmas on the insertion sort model -/

theorem mem_insertLe {α : Type} (le : α → α → Bool) (x : α) (l : List α) (a : α) :
    a ∈ insertLe le x l ↔ a = x ∨ a ∈ l := by
  induction l with
  | nil => simp [insertLe]
  | cons y ys ih =>
    cases h : le x y
    · simp only [insertLe, h, Bool.false_eq_true, if_false, List.mem_cons, ih]
      tauto
    · simp [insertLe, h]

theorem perm_insertLe {α : Type} (le : α → α → Bool) (x : α) (l : List α) :
    (insertLe le x l).Perm (x :: l) := by
  induction l with
  | nil => simp [insertLe]
  | cons y ys ih =>
    cases h : le x y
    · simp only [insertLe, h, Bool.false_eq_true, if_false]
      exact (ih.cons y).trans (List.Perm.swap x y ys)
    · simp [insertLe, h]

theorem perm_sortLe {α : Type} (le : α → α → Bool) (l : List α) :
    (sortLe le l).Perm l := by
  induction l with
  | nil => simp [sortLe]
  | cons x xs ih =>
    have : sortLe le (x :: xs) = insertLe le x (sortLe le xs) := rfl
    rw [this]
    exact (perm_insertLe le x (sortLe le xs)).trans (ih.cons x)

theorem pairwise_insertLe {α : Type} {le : α → α → Bool}
    (htot : ∀ a b, le a b = true ∨ le b a = true)
    (htrans : ∀ a b c, le a b = true → le b c = true → le a c = true)
    (x : α) (l : List α) (hl : l.Pairwise (fun a b => le a b = true)) :
    (insertLe le x l).Pairwise (fun a b => le a b = true) := by
  induction l with
  | nil => simp [insertLe]
  | cons y ys ih =>
    rcases List.pairwise_cons.mp hl with ⟨hy, hys⟩
    cases h : le x y
    · simp only [insertLe, h, Bool.false_eq_true, if_false]
      refine List.pairwise_cons.mpr ⟨?_, ih hys⟩
      intro z hz
      rcases (mem_insertLe le x ys z).mp hz with hz | hz
      · rw [hz]
        rcases htot x y with h2 | h2
        · rw [h] at h2; exact absurd h2 (by simp)
        · exact h2
      · exact hy z hz
    · simp only [insertLe, h, if_true]
      refine List.pairwise_cons.mpr ⟨?_, hl⟩
      intro z hz
      rcases List.mem_cons.mp hz with hz | hz
      · subst hz; exact h
      · exact htrans x y z h (hy z hz)

theorem pairwise_sortLe {α : Type} {le : α → α → Bool}
    (htot : ∀ a b, le a b = true ∨ le b a = true)
    (htrans : ∀ a b c, le a b = true → le b c = true → le a c = true)
    (l : List α) : (sortLe le l).Pairwise (fun a b => le a b = true) := by
  induction l with
  | nil => simp [sortLe]
  | cons x xs ih =>
    have : sortLe le (x :: xs) = insertLe le x (sortLe le xs) := rfl
    rw [this]
    exact pairwise_insertLe htot htrans x (sortLe le xs) ih

theorem filter_insertLe_pos {α : Type} {le : α → α → Bool} {p : α → Bool} {x : α}
    (hx : p x = true) (hcomp : ∀ y, p y = true → le x y = true) (l : List α) :
    (insertLe le x l).filter p = x :: l.filter p := by
  induction l with
  | nil => simp [insertLe, hx]
  | cons y ys ih =>
    cases h : le x y
    · have hy : p y = false := by
        cases hpy : p y
        · rfl
        · rw [hcomp y hpy] at h; exact absurd h (by simp)
      simp [insertLe, h, hy, ih]
    · simp [insertLe, h, hx]

theorem filter_insertLe_neg {α : Type} {le : α → α → Bool} {p : α → Bool} {x : α}
    (hx : p x = false) (l : List α) :
    (insertLe le x l).filter p = l.filter p := by
  induction l with
  | nil => simp [insertLe, hx]
  | cons y ys ih =>
    cases h : le x y
    · cases hpy : p y
      · simp [insertLe, h, hpy, ih]
      · simp [insertLe, h, hpy, ih]
    · simp [insertLe, h, hx]

theorem digitChar10_toNat (n : Nat) : (digitChar10 n).toNat = 48 + n % 10 := by
  have h : n % 10 < 10 := Nat.mod_lt _ (by omega)
  unfold digitChar10
  generalize hg : n % 10 = m at h ⊢
  interval_cases m <;> decide

theorem digitChar10_eq_of_mod (m n : Nat) (h : m % 10 = n % 10) :
    digitChar10 m = digitChar10 n := by
  unfold digitChar10
  rw [h]

theorem digit_recon (c : Char) (h : isDig c = true) : digitChar10 (dVal c) = c := by
  have hb : 48 ≤ c.toNat ∧ c.toNat ≤ 57 := by
    simpa [isDig] using h
  unfold digitChar10 dVal
  rw [Nat.mod_eq_of_lt (by omega), show 48 + (c.toNat - 48) = c.toNat from by omega,
    Char.ofNat_toNat]

theorem parseYMD_recon :
    ∀ (cs : List Char) (x : Nat × Nat × Nat), parseYMD cs = some x →
      formatDateChars x = cs ∧ cs.length = 10 := by
  intro cs x h
  rcases cs with _ | ⟨y1, cs⟩
  · simp [parseYMD] at h
  rcases cs with _ | ⟨y2, cs⟩
  · simp [parseYMD] at h
  rcases cs with _ | ⟨y3, cs⟩
  · simp [parseYMD] at h
  rcases cs with _ | ⟨y4, cs⟩
  · simp [parseYMD] at h
  rcases cs with _ | ⟨s1, cs⟩
  · simp [parseYMD] at h
  rcases cs with _ | ⟨mo1, cs⟩
  · simp [parseYMD] at h
  rcases cs with _ | ⟨mo2, cs⟩
  · simp [parseYMD] at h
  rcases cs with _ | ⟨s2, cs⟩
  · simp [parseYMD] at h
  rcases cs with _ | ⟨d1, cs⟩
  · simp [parseYMD] at h
  rcases cs with _ | ⟨d2, cs⟩
  · simp [parseYMD] at h
  rcases cs with _ | ⟨c11, cs⟩
  swap
  · simp [parseYMD] at h
  simp only [parseYMD] at h
  by_cases hc : (s1 == '-' && s2 == '-' && [y1, y2, y3, y4, mo1, mo2, d1, d2].all isDig) = true
  swap
  · rw [if_neg hc] at h
    simp at h
  rw [if_pos hc] at h
  by_cases hv : validYmd (fourDigit y1 y2 y3 y4) (twoDigit mo1 mo2) (twoDigit d1 d2) = true
  swap
  · rw [if_neg hv] at h
    simp at h
  rw [if_pos hv] at h
  have hx := (Option.some.injEq _ _).mp h
  subst hx
  simp only [Bool.and_eq_true, List.all_cons, List.all_nil] at hc
  obtain ⟨⟨hs1, hs2⟩, hy1, hy2, hy3, hy4, hmo1, hmo2, hd1, hd2, -⟩ := hc
  have hs1e : s1 = '-' := by simpa using hs1
  have hs2e : s2 = '-' := by simpa using hs2
  subst hs1e hs2e
  refine ⟨?_, rfl⟩
  have b1 : 48 ≤ y1.toNat ∧ y1.toNat ≤ 57 := by simpa [isDig] using hy1
  have b2 : 48 ≤ y2.toNat ∧ y2.toNat ≤ 57 := by simpa [isDig] using hy2
  have b3 : 48 ≤ y3.toNat ∧ y3.toNat ≤ 57 := by simpa [isDig] using hy3
  have b4 : 48 ≤ y4.toNat ∧ y4.toNat ≤ 57 := by simpa [isDig] using hy4
  have b5 : 48 ≤ mo1.toNat ∧ mo1.toNat ≤ 57 := by simpa [isDig] using hmo1
  have b6 : 48 ≤ mo2.toNat ∧ mo2.toNat ≤ 57 := by simpa [isDig] using hmo2
  have b7 : 48 ≤ d1.toNat ∧ d1.toNat ≤ 57 := by simpa [isDig] using hd1
  have b8 : 48 ≤ d2.toNat ∧ d2.toNat ≤ 57 := by simpa [isDig] using hd2
  simp only [formatDateChars, List.cons.injEq, and_true]
  refine ⟨?_, ?_, ?_, ?_, trivial, ?_, ?_, trivial, ?_, ?_⟩
  · rw [digitChar10_eq_of_mod _ (dVal y1) (by simp only [fourDigit, dVal]; omega),
      digit_recon y1 hy1]
  · rw [digitChar10_eq_of_mod _ (dVal y2) (by simp only [fourDigit, dVal]; omega),
      digit_recon y2 hy2]
  · rw [digitChar10_eq_of_mod _ (dVal y3) (by simp only [fourDigit, dVal]; omega),
      digit_recon y3 hy3]
  · rw [digitChar10_eq_of_mod _ (dVal y4) (by simp only [fourDigit, dVal]; omega),
      digit_recon y4 hy4]
  · rw [digitChar10_eq_of_mod _ (dVal mo1) (by simp only [twoDigit, dVal]; omega),
      digit_recon mo1 hmo1]
  · rw [digitChar10_eq_of_mod _ (dVal mo2) (by simp only [twoDigit, dVal]; omega),
      digit_recon mo2 hmo2]
  · rw [digitChar10_eq_of_mod _ (dVal d1) (by simp only [twoDigit, dVal]; omega),
      digit_recon d1 hd1]
  · rw [digitChar10_eq_of_mod _ (dVal d2) (by simp only [twoDigit, dVal]; omega),
      digit_recon d2 hd2]

theorem filter_sortLe {α : Type} {le : α → α → Bool} {p : α → Bool}
    (hcomp : ∀ a b, p a = true → p b = true → le a b = true) (l : List α) :
    (sortLe le l).filter p = l.filter p := by
  induction l with
  | nil => rfl
  | cons x xs ih =>
    have hs : sortLe le (x :: xs) = insertLe le x (sortLe le xs) := rfl
    rw [hs]
    cases hx : p x
    · rw [filter_insertLe_neg hx, ih]
      simp [hx]
    · rw [filter_insertLe_pos hx (fun y hy => hcomp x y hx hy), ih]
      simp [hx]
example : sortTransform exTableMixed "d" =
    ⟨["d", "x"], [["NaT", "b"], ["2024-01-06", "a"]]⟩ := by decide
example : updaterMain true exTableNoDate [] = ⟨3, none⟩ := by decide
example : apiToRow exApiRow = ⟨"2010-02-03", "17 22 36 37 52 24", "2"⟩ := by decide

/-! ## Helper lemmas about sortTransform and the NaT sort key -/

theorem cellAt_set_self (r : List String) (i : Nat) (v : String) :
    cellAt (r.set i v) i = v ∨ cellAt (r.set i v) i = "" := by
  by_cases h : i < r.length
  · left
    unfold cellAt
    rw [List.getD_eq_get?, List.get?_eq_getElem?, List.getElem?_set_self h]
    rfl
  · right
    unfold cellAt
    rw [List.set_eq_of_length_le (by omega), List.getD_eq_get?,
      List.get?_eq_none.mpr (by omega)]
    rfl

theorem sortTransform_rows (t : Table) (col : String) :
    (sortTransform t col).rows =
      sortLe
        (fun a b => strLe (cellAt b (idxOfCol col t.headers)) (cellAt a (idxOfCol col t.headers)))
        (t.rows.map (fun r => r.set (idxOfCol col t.headers)
          (normalizeCell (cellAt r (idxOfCol col t.headers))))) := rfl

theorem sortTransform_pairwise (t : Table) (col : String) :
    (sortTransform t col).rows.Pairwise
      (fun p q => strLe (cellAt q (idxOfCol col t.headers))
        (cellAt p (idxOfCol col t.headers)) = true) := by
  rw [sortTransform_rows]
  refine pairwise_sortLe ?_ ?_ _
  · intro p q
    exact strLe_total _ _
  · intro p q r h1 h2
    exact strLe_trans h2 h1

theorem sortTransform_key_shape (t : Table) (col : String) (a : List String)
    (ha : a ∈ (sortTransform t col).rows) :
    cellAt a (idxOfCol col t.headers) = "" ∨
      cellAt a (idxOfCol col t.headers) = "NaT" ∨
      ∃ x, cellAt a (idxOfCol col t.headers) = formatDate x := by
  rw [sortTransform_rows] at ha
  have ha2 := (perm_sortLe _ _).mem_iff.mp ha
  obtain ⟨r, _, hr⟩ := List.mem_map.mp ha2
  subst hr
  rcases cellAt_set_self r (idxOfCol col t.headers)
      (normalizeCell (cellAt r (idxOfCol col t.headers))) with h | h
  · rw [h]
    cases hp : parseDate (cellAt r (idxOfCol col t.headers)) with
    | none =>
      right; left
      unfold normalizeCell normalizeDate
      rw [hp]
      rfl
    | some x =>
      right; right
      refine ⟨x, ?_⟩
      unfold normalizeCell normalizeDate
      rw [hp]
      rfl
  · left
    exact h

theorem strLe_NaT_formatDate (x : Nat × Nat × Nat) :
    strLe "NaT" (formatDate x) = false := by
  have h1 : (digitChar10 (x.1 / 1000)).toNat = 48 + x.1 / 1000 % 10 := digitChar10_toNat _
  have hm : x.1 / 1000 % 10 < 10 := Nat.mod_lt _ (by omega)
  show strLeChars "NaT".data (formatDateChars x) = false
  rw [show "NaT".data = 'N' :: 'a' :: 'T' :: [] from rfl]
  unfold formatDateChars
  simp only [strLeChars]
  rw [show ('N' : Char).toNat = 78 from rfl, h1, if_neg (by omega), if_pos (by omega)]

theorem strLt_formatDate_NaT (x : Nat × Nat × Nat) :
    strLt (formatDate x) "NaT" = true := by
  have h1 : (digitChar10 (x.1 / 1000)).toNat = 48 + x.1 / 1000 % 10 := digitChar10_toNat _
  have hm : x.1 / 1000 % 10 < 10 := Nat.mod_lt _ (by omega)
  show strLtChars (formatDateChars x) "NaT".data = true
  rw [show "NaT".data = 'N' :: 'a' :: 'T' :: [] from rfl]
  unfold formatDateChars
  simp only [strLtChars]
  rw [show ('N' : Char).toNat = 78 from rfl, h1, if_pos (by omega)]

/-! ## Claim C1 -/

/-- Counterexample to claim C1.  The claim says merge groups rows by
canonical drawDate so that at most one row per canonical date remains and a
new row overrides an existing row with the same date.  But merge (lines 108
and 109 of powerball_updater.py) deduplicates on the raw Draw Date string:
an existing row dated 2024-01-06T00:00:00 and a new row dated 2024-01-06
have the same canonical date 2024-01-06, yet both survive the merge. -/
theorem merge_canonical_dedup_fails :
    normalizeDate exRowOld.drawDate = some "2024-01-06" ∧
    normalizeDate exRowNew.drawDate = some "2024-01-06" ∧
    merge [exRowOld] [exRowNew] = [exRowNew, exRowOld] := by decide

/-- Claim C1, amended.  merge concatenates existing rows with new rows after
them and deduplicates by the literal Draw Date string, keeping for every
string key exactly the last row of the concatenation that carries it (so a
newly fetched row overrides an existing row only when the two date strings
are literally equal), and returns the result sorted ascending by the Draw
Date string; this coincides with grouping and sorting by canonical date
exactly when every stored date string is already canonical. -/
theorem merge_string_dedup_sorted :
    (∀ (ex nw : List Row) (k : String),
      (merge ex nw).filter (fun r => r.drawDate == k) =
        (((ex ++ nw).filter (fun r => r.drawDate == k)).getLast?).toList) ∧
    (∀ ex nw : List Row,
      (merge ex nw).Pairwise (fun a b => rowLeAsc a b = true)) := by
  constructor
  · intro ex nw k
    have hcomp : ∀ a b : Row, (a.drawDate == k) = true → (b.drawDate == k) = true →
        rowLeAsc a b = true := by
      intro a b ha hb
      have ha2 : a.drawDate = k := by simpa using ha
      have hb2 : b.drawDate = k := by simpa using hb
      unfold rowLeAsc
      rw [ha2, hb2]
      exact strLe_refl k
    unfold merge
    rw [filter_sortLe hcomp, filter_keepLastByDate]
  · intro ex nw
    unfold merge
    refine pairwise_sortLe ?_ ?_ _
    · intro a b
      exact strLe_total a.drawDate b.drawDate
    · intro a b c h1 h2
      exact strLe_trans h1 h2

/-! ## Claim C2 -/

/-- Counterexample to claim C2.  The claim says identification of the date
column is invariant to case and punctuation in both scripts, so the headers
Draw Date and DRAW-DATE identify the same column.  The sorter normalizes
headers, but the updater's pick matches headers verbatim against a fixed
list: with header Draw Date it finds the column, with header DRAW-DATE
(equal after normalization) it finds nothing and the updater exits 3. -/
theorem pick_not_normalization_invariant :
    norm "DRAW-DATE" = norm "Draw Date" ∧
    pick ["Draw Date"] dateNameOptions = some "Draw Date" ∧
    pick ["DRAW-DATE"] dateNameOptions = none ∧
    updaterMain true ⟨["DRAW-DATE"], [["2024-01-06"]]⟩ [] = ⟨3, none⟩ := by decide

/-- Claim C2, amended.  The sorter's guess_date_col normalizes each header
by stripping non-alphanumerics and lowercasing and returns the first header
whose normalized form lies in DATE_CANDIDATES, so its name-based match is
invariant under normalization-preserving renaming and each of Draw Date,
draw_date and DRAW-DATE is identified; the updater's pick instead returns
the first of the fixed spellings Draw Date, draw_date, Draw date, date that
occurs verbatim among the headers, and is therefore not invariant to case
and punctuation. -/
theorem identify_date_column_invariance :
    (∀ cols cols2 : List String, cols.map norm = cols2.map norm →
      nameMatchIdx cols = nameMatchIdx cols2) ∧
    (norm "Draw Date" = "drawdate" ∧ norm "draw_date" = "drawdate" ∧
      norm "DRAW-DATE" = "drawdate" ∧ dateCandidates.contains "drawdate" = true) ∧
    (guess_date_col ⟨["Draw Date"], [["x"]]⟩ = some "Draw Date" ∧
      guess_date_col ⟨["draw_date"], [["x"]]⟩ = some "draw_date" ∧
      guess_date_col ⟨["DRAW-DATE"], [["x"]]⟩ = some "DRAW-DATE") ∧
    (∀ cols n, pick cols dateNameOptions = some n →
      n ∈ dateNameOptions ∧ cols.contains n = true) := by
  refine ⟨?_, by decide, by decide, ?_⟩
  · intro cols cols2 h
    induction cols generalizing cols2 with
    | nil =>
      cases cols2 with
      | nil => rfl
      | cons c2 cs2 => simp at h
    | cons c cs ih =>
      cases cols2 with
      | nil => simp at h
      | cons c2 cs2 =>
        simp only [List.map_cons, List.cons.injEq] at h
        obtain ⟨h1, h2⟩ := h
        simp only [nameMatchIdx, h1, ih cs2 h2]
  · intro cols n h
    exact ⟨List.mem_of_find?_eq_some h, List.find?_some h⟩

/-- Witness for the amended claim C2 at concrete inputs. -/
theorem identify_date_column_invariance_witness :
    nameMatchIdx ["DRAW-DATE"] = nameMatchIdx ["draw_date"] ∧
      ("Draw Date" ∈ dateNameOptions ∧ ["Draw Date"].contains "Draw Date" = true) :=
  ⟨identify_date_column_invariance.1 ["DRAW-DATE"] ["draw_date"] (by decide),
    identify_date_column_invariance.2.2.2 ["Draw Date"] "Draw Date" (by decide)⟩

/-! ## Claim C3 -/

/-- Claim C3.  When no header of the table matches the DateCandidate set by
normalized name, guess_date_col falls back to content-based detection: it
returns none when no column has a parseable date cell, and otherwise the
name of the first column in column order whose parse count equals the
maximum, that is, the column with the strictly highest positive count with
ties won by the first column scanned. -/
theorem guess_date_col_content_fallback (t : Table)
    (hname : (tableCols t).find? (fun c => dateCandidates.contains (norm c.name)) = none) :
    guess_date_col t =
      (if listMaxHits (tableCols t) = 0 then none
       else ((tableCols t).find? (fun c => hits c == listMaxHits (tableCols t))).map
         (fun c => c.name)) ∧
    (listMaxHits (tableCols t) = 0 ↔ ∀ c ∈ tableCols t, hits c = 0) := by
  constructor
  · have hg : guess_date_col t = contentGo (tableCols t) none (-1) := by
      unfold guess_date_col
      rw [hname]
    rw [hg, contentGo_spec]
    by_cases h0 : listMaxHits (tableCols t) = 0
    · rw [if_neg (by simp [h0]), if_pos h0]
    · rw [if_pos (by constructor <;> omega), if_neg h0]
  · exact listMaxHits_eq_zero_iff _

/-- Witness for claim C3: a table with headers a and b, where only column b
has a parseable date, is identified as b through the content fallback. -/
theorem guess_date_col_content_fallback_witness :
    guess_date_col exTableContent = some "b" ∧
      listMaxHits (tableCols exTableContent) = 1 := by
  have h := guess_date_col_content_fallback exTableContent (by decide)
  refine ⟨?_, by decide⟩
  rw [h.1]
  decide

/-! ## Claim C4 -/

/-- Claim C4.  Normalizing a string already in canonical YYYY-MM-DD form
returns the same string (idempotence); every parseable input normalizes to
the fixed-width ten-character YYYY-MM-DD rendering of its calendar date,
with dashes at positions 4 and 7; and appending an ISO time-of-day suffix
after a T leaves the normalized date unchanged, so the time component is
discarded. -/
theorem normalize_date_idempotent_fixed_width :
    (∀ (s : String) (x : Nat × Nat × Nat), parseYMD s.data = some x →
      normalizeDate s = some s) ∧
    (∀ (s : String) (x : Nat × Nat × Nat), parseDate s = some x →
      normalizeDate s = some (formatDate x) ∧ (formatDate x).length = 10 ∧
        (formatDate x).data.getD 4 ' ' = '-' ∧ (formatDate x).data.getD 7 ' ' = '-') ∧
    (∀ (s t : String) (x : Nat × Nat × Nat), parseYMD s.data = some x →
      validTime t.data = true → normalizeDate (s ++ "T" ++ t) = normalizeDate s) := by
  refine ⟨?_, ?_, ?_⟩
  · intro s x h
    have hp : parseDate s = some x := by
      unfold parseDate
      rw [h]
    have hf : formatDate x = s := by
      unfold formatDate
      rw [(parseYMD_recon s.data x h).1]
    unfold normalizeDate
    rw [hp, Option.map_some', hf]
  · intro s x h
    unfold normalizeDate
    rw [h]
    exact ⟨rfl, rfl, rfl, rfl⟩
  · intro s t x hs ht
    have hlen : s.data.length = 10 := (parseYMD_recon s.data x hs).2
    have hdata : (s ++ "T" ++ t).data = (s.data ++ ['T']) ++ t.data := by
      rw [String.data_append, String.data_append]
    have h1 : parseYMD ((s.data ++ ['T']) ++ t.data) = none := by
      cases hp : parseYMD ((s.data ++ ['T']) ++ t.data) with
      | none => rfl
      | some y =>
        have hl := (parseYMD_recon _ y hp).2
        simp only [List.length_append, List.length_cons, List.length_nil, hlen] at hl
        omega
    have h2 : parseMDY ((s.data ++ ['T']) ++ t.data) = none := by
      cases hp : parseMDY ((s.data ++ ['T']) ++ t.data) with
      | none => rfl
      | some y =>
        have hl := parseMDY_length _ y hp
        simp only [List.length_append, List.length_cons, List.length_nil, hlen] at hl
        omega
    have hg : ((s.data ++ ['T']) ++ t.data).get? 10 = some 'T' := by
      rw [List.get?_append (by simp [hlen]),
        List.get?_append_right (by omega), hlen]
      decide
    have hdrop : ((s.data ++ ['T']) ++ t.data).drop 11 = t.data := by
      have h11 : (s.data ++ ['T']).length = 11 := by simp [hlen]
      rw [← h11, List.drop_left]
    have htake : ((s.data ++ ['T']) ++ t.data).take 10 = s.data := by
      rw [List.append_assoc, ← hlen, List.take_left]
    have hps : parseDate s = some x := by
      unfold parseDate
      rw [hs]
    have hpf : parseDate (s ++ "T" ++ t) = some x := by
      unfold parseDate
      rw [hdata, h1, h2, hg, hdrop, ht, htake, hs]
      rfl
    unfold normalizeDate
    rw [hps, hpf]

/-- Witness for claim C4 at concrete inputs. -/
theorem normalize_date_idempotent_fixed_width_witness :
    normalizeDate "2024-01-06" = some "2024-01-06" ∧
      (formatDate (2024, 1, 6)).length = 10 ∧
      normalizeDate ("2024-01-06" ++ "T" ++ "12:30:45") = normalizeDate "2024-01-06" := by
  refine ⟨?_, ?_, ?_⟩
  · exact normalize_date_idempotent_fixed_width.1 "2024-01-06" (2024, 1, 6) (by decide)
  · exact (normalize_date_idempotent_fixed_width.2.1 "2024-01-06" (2024, 1, 6)
      (by decide)).2.1
  · exact normalize_date_idempotent_fixed_width.2.2 "2024-01-06" "12:30:45" (2024, 1, 6)
      (by decide) (by decide)

/-! ## Claim C5 -/

/-- Counterexample to claim C5.  The claim says an unparseable value sorts
as the empty string, after all valid dates in the descending order the
sorter uses.  In fact line 40 of sort_powerball.py renders an unparseable
cell as the string NaT, which compares above every YYYY-MM-DD string, so in
the descending sort the unparseable row of exTableMixed comes first, before
the valid date, not after it. -/
theorem unparseable_sort_key_not_empty :
    normalizeCell "garbage" = "NaT" ∧
    ("NaT" = "" → False) ∧
    (sortTransform exTableMixed "d").rows = [["NaT", "b"], ["2024-01-06", "a"]] := by
  decide

/-- Claim C5, amended.  An unparseable value in the chosen date column is
normalized to the string NaT, which sorts after every valid YYYY-MM-DD date
in ascending string order, hence before all valid dates in the descending
order sort_file uses: in the sorted output no NaT-keyed row ever appears
after a row with a different key, deterministically and without error. -/
theorem sortTransform_nat_placement :
    (∀ s, parseDate s = none → normalizeCell s = "NaT") ∧
    (∀ x : Nat × Nat × Nat,
      strLt (formatDate x) "NaT" = true ∧ strLe "NaT" (formatDate x) = false) ∧
    (∀ (t : Table) (col : String) (l1 l2 l3 : List (List String))
        (a b : List String),
      (sortTransform t col).rows = l1 ++ a :: (l2 ++ b :: l3) →
      cellAt b (idxOfCol col t.headers) = "NaT" →
      cellAt a (idxOfCol col t.headers) = "NaT") := by
  refine ⟨?_, ?_, ?_⟩
  · intro s h
    unfold normalizeCell normalizeDate
    rw [h]
    rfl
  · intro x
    exact ⟨strLt_formatDate_NaT x, strLe_NaT_formatDate x⟩
  · intro t col l1 l2 l3 a b hrows hbk
    have hpw := sortTransform_pairwise t col
    rw [hrows] at hpw
    have hab : strLe (cellAt b (idxOfCol col t.headers))
        (cellAt a (idxOfCol col t.headers)) = true := by
      rcases List.pairwise_append.mp hpw with ⟨-, hp2, -⟩
      rcases List.pairwise_cons.mp hp2 with ⟨hrel, -⟩
      exact hrel b (by simp)
    rw [hbk] at hab
    have hmem : a ∈ (sortTransform t col).rows := by
      rw [hrows]
      simp
    rcases sortTransform_key_shape t col a hmem with h | h | ⟨x, h⟩
    · rw [h] at hab
      simp [strLe, strLeChars] at hab
    · exact h
    · rw [h] at hab
      rw [strLe_NaT_formatDate x] at hab
      exact absurd hab (by simp)

/-- Witness for the amended claim C5 at concrete inputs. -/
theorem sortTransform_nat_placement_witness :
    normalizeCell "zzz" = "NaT" ∧
      strLt (formatDate (2024, 1, 6)) "NaT" = true ∧
      cellAt ["NaT"] (idxOfCol "d" exTableTwoBad.headers) = "NaT" := by
  refine ⟨sortTransform_nat_placement.1 "zzz" (by decide),
    (sortTransform_nat_placement.2.1 (2024, 1, 6)).1, ?_⟩
  exact sortTransform_nat_placement.2.2 exTableTwoBad "d" [] [] [] ["NaT"] ["NaT"]
    (by decide) (by decide)

/-! ## Claim C6 -/

/-- Claim C6.  The updater exits with status 2 when the CSV file does not
exist and with status 3 when pick can find no date column, and in both
cases nothing is written over the CSV. -/
theorem updater_exit_codes :
    (∀ (df : Table) (ds : List ApiRow), updaterMain false df ds = ⟨2, none⟩) ∧
    (∀ (df : Table) (ds : List ApiRow), pick df.headers dateNameOptions = none →
      updaterMain true df ds = ⟨3, none⟩) := by
  constructor
  · intro df ds
    rfl
  · intro df ds h
    simp [updaterMain, h]

/-- Witness for claim C6 at concrete inputs. -/
theorem updater_exit_codes_witness :
    updaterMain false exTableMixed [] = ⟨2, none⟩ ∧
      updaterMain true exTableNoDate [] = ⟨3, none⟩ :=
  ⟨updater_exit_codes.1 exTableMixed [],
    updater_exit_codes.2 exTableNoDate [] (by decide)⟩

/-! ## Claim C7 -/

/-- Claim C7.  The sorter processes every file independently in order: a
missing file is skipped with a not-found diagnostic and nothing written, a
file with no date-like column is skipped with a diagnostic naming its
headers and nothing written, the remaining files are still processed, and
the process exit status equals the sys.exit encoding of the value sort_file
returns for the last file, which is None (hence 0) for every outcome. -/
theorem sorter_skips_and_continues :
    (∀ files : List (String × Option Table),
      (sorterMain files).1.length = files.length) ∧
    (∀ (files : List (String × Option Table)) (i : Nat) (p : String × Option Table),
      files.get? i = some p →
      (sorterMain files).1.get? i = some (sort_file p.1 p.2)) ∧
    (∀ path, sort_file path none = ⟨"#skip: " ++ path ++ " not found", none⟩) ∧
    (∀ (path : String) (t : Table), guess_date_col t = none →
      sort_file path (some t) =
        ⟨"#skip: " ++ path ++ " has no date-like column (headers: "
          ++ String.intercalate ", " t.headers ++ ")", none⟩) ∧
    (∀ (files : List (String × Option Table)) (res : FileResult),
      (sorterMain files).1.getLast? = some res →
      (sorterMain files).2 = sysExitOfReturn (sortFileReturn res)) := by
  refine ⟨?_, ?_, ?_, ?_, ?_⟩
  · intro files
    simp [sorterMain]
  · intro files i p h
    show (files.map (fun q => sort_file q.1 q.2)).get? i = some (sort_file p.1 p.2)
    rw [List.get?_map, h]
    rfl
  · intro path
    rfl
  · intro path t h
    simp [sort_file, h]
  · intro files res _
    rfl

/-- Witness for claim C7 at concrete inputs. -/
theorem sorter_skips_and_continues_witness :
    (sorterMain [("a.csv", none), ("b.csv", some exTableContent)]).1.get? 1 =
        some (sort_file "b.csv" (some exTableContent)) ∧
      sort_file "c.csv" (some exTableNoDate) =
        ⟨"#skip: " ++ "c.csv" ++ " has no date-like column (headers: "
          ++ String.intercalate ", " exTableNoDate.headers ++ ")", none⟩ ∧
      (sorterMain [("a.csv", none)]).2 =
        sysExitOfReturn (sortFileReturn (sort_file "a.csv" none)) :=
  ⟨sorter_skips_and_continues.2.1 [("a.csv", none), ("b.csv", some exTableContent)] 1
      ("b.csv", some exTableContent) (by decide),
    sorter_skips_and_continues.2.2.2.1 "c.csv" exTableNoDate (by decide),
    sorter_skips_and_continues.2.2.2.2 [("a.csv", none)] (sort_file "a.csv" none)
      (by decide)⟩

/-! ## Claim C8 -/

/-- Claim C8.  The sort performed by sort_file is stable: restricting the
sorted rows to those whose date-column key equals any fixed value yields
exactly the corresponding rows of the normalized table in their original
relative order. -/
theorem sortTransform_stable (t : Table) (col : String) (k : String) :
    ((sortTransform t col).rows.filter
        (fun r => cellAt r (idxOfCol col t.headers) == k)) =
      ((t.rows.map (fun r => r.set (idxOfCol col t.headers)
          (normalizeCell (cellAt r (idxOfCol col t.headers))))).filter
        (fun r => cellAt r (idxOfCol col t.headers) == k)) := by
  rw [sortTransform_rows]
  refine filter_sortLe ?_ _
  intro a b ha hb
  have ha2 : cellAt a (idxOfCol col t.headers) = k := by simpa using ha
  have hb2 : cellAt b (idxOfCol col t.headers) = k := by simpa using hb
  rw [ha2, hb2]
  exact strLe_refl k

/-! ## Claim C9 -/

/-- Claim C9.  When no value of the date column parses (including the empty
table), the updater does not fail: last_date_iso falls back to the sentinel
2009-12-31, the server-side filter with that bound keeps every dataset row
dated after it (so the fetch requests all draws from the beginning of the
dataset), and whenever a date column was found the run ends with exit
status 0. -/
theorem updater_sentinel_since :
    (∀ vals : List String, vals.filterMap parseDate = [] →
      last_date_iso vals = "2009-12-31") ∧
    (∀ ds : List ApiRow, (∀ r ∈ ds, strLt "2009-12-31" (r.draw_date.getD "") = true) →
      serverRows ds "2009-12-31" = ds) ∧
    (∀ (df : Table) (ds : List ApiRow) (c : String),
      pick df.headers dateNameOptions = some c →
      (updaterMain true df ds).exitCode = 0) := by
  refine ⟨?_, ?_, ?_⟩
  · intro vals h
    unfold last_date_iso
    rw [h]
  · intro ds h
    exact List.filter_eq_self.mpr h
  · intro df ds c h
    simp only [updaterMain, h, if_true]
    split <;> rfl

/-- Witness for claim C9 at concrete inputs. -/
theorem updater_sentinel_since_witness :
    last_date_iso ["garbage", ""] = "2009-12-31" ∧
      serverRows [exApiRow] "2009-12-31" = [exApiRow] ∧
      (updaterMain true exTableUpd []).exitCode = 0 :=
  ⟨updater_sentinel_since.1 ["garbage", ""] (by decide),
    updater_sentinel_since.2.1 [exApiRow] (by decide),
    updater_sentinel_since.2.2 exTableUpd [] "date" (by decide)⟩

/-! ## Claim C10 -/

/-- Claim C10.  In a file the sorter rewrites, each date-column cell that
fails to parse is written as the literal string NaT, not as an empty
string: unparseable cells normalize to NaT, the written rows are exactly a
permutation of the rows with the date cell replaced by its normalization,
and on exTableMixed the written table indeed contains a NaT cell. -/
theorem sorter_writes_nat_cells :
    (∀ s, parseDate s = none → normalizeCell s = "NaT" ∧ normalizeCell s ≠ "") ∧
    (∀ (t : Table) (col : String),
      ((sortTransform t col).rows).Perm
        (t.rows.map (fun r => r.set (idxOfCol col t.headers)
          (normalizeCell (cellAt r (idxOfCol col t.headers)))))) ∧
    ((sort_file "powerball.csv" (some exTableMixed)).written =
      some ⟨["d", "x"], [["NaT", "b"], ["2024-01-06", "a"]]⟩) := by
  refine ⟨?_, ?_, by decide⟩
  · intro s h
    have he : normalizeCell s = "NaT" := by
      unfold normalizeCell normalizeDate
      rw [h]
      rfl
    exact ⟨he, by rw [he]; decide⟩
  · intro t col
    rw [sortTransform_rows]
    exact perm_sortLe _ _

/-- Witness for claim C10 at a concrete input. -/
theorem sorter_writes_nat_cells_witness :
    normalizeCell "abc" = "NaT" ∧ normalizeCell "abc" ≠ "" :=
  sorter_writes_nat_cells.1 "abc" (by decide)

